import Mathlib

/-!
Verification of the crawl engine of `src/crawl.py` (class `WebCrawler`).

Shallow embedding conventions:
* Python strings are modelled as `List Char` (`Str`).
* External library calls (`urlparse(·).netloc`, `urljoin`, `str.strip` on
  hrefs, `requests.get`, BeautifulSoup parsing, and the completion order
  produced by `as_completed`) are oracle functions bundled in `Ext`; the
  engine's own logic is translated literally.
* `re.sub(r'[\x00-\x08\x0B\x0C\x0E-\x1F\x7F]+', '', s)` is modelled as
  filtering out exactly the characters of that class.
* Backoff sleeps (`time.sleep`) have no observable effect in the model.
-/

namespace WordsCount

/-- Python strings, modelled as lists of characters. -/
abbrev Str := List Char

/-- Lift a Lean string literal to the `Str` model. -/
def strOf (s : String) : Str := s.toList

/-- Python `str.lower()` (ASCII case folding, as used on header values and
URLs in `crawl.py`). -/
def lowerStr (s : Str) : Str := s.map Char.toLower

/-- Python `needle in haystack` substring test, used for the
`'text/html' not in content_type` check at `crawl.py:103`. -/
def containsSub : Str → Str → Bool
  | [], pat => pat.isEmpty
  | c :: rest, pat => pat.isPrefixOf (c :: rest) || containsSub rest pat

/-- `link.lower().endswith('.pdf')` from `crawl.py:83`. -/
def pdfSuffix (link : Str) : Bool :=
  (strOf ".pdf").isSuffixOf (lowerStr link)

/-- The character class of the regex at `crawl.py:170`:
`[\x00-\x08\x0B\x0C\x0E-\x1F\x7F]`. -/
def ctlChar (c : Char) : Bool :=
  (c.toNat ≤ 0x08) || (c.toNat == 0x0B) || (c.toNat == 0x0C) ||
    (0x0E ≤ c.toNat && c.toNat ≤ 0x1F) || (c.toNat == 0x7F)

/-- `WebCrawler._clean_text` (`crawl.py:165-171`): remove every character
of the control class. -/
def clean_text (s : Str) : Str := s.filter (fun c => !(ctlChar c))

/-- Four spaces, the indentation unit of `_write_page`. -/
def spaces4 : Str := strOf "    "

/-- Python `cleaned_text.replace("\n", "\n    ")` from `crawl.py:162`. -/
def replNl : Str → Str
  | [] => []
  | c :: rest =>
    if c = '\n' then '\n' :: (spaces4 ++ replNl rest) else c :: replNl rest

/-- `WebCrawler._write_page` (`crawl.py:154-163`): the full text emitted
for one page, i.e. the concatenation of the two `file_obj.write` calls. -/
def write_page (title text url : Str) : Str :=
  clean_text title ++ strOf " (" ++ url ++ strOf "):" ++ ['\n'] ++
    (spaces4 ++ replNl (clean_text text)) ++ ['\n', '\n']

/-- Split a string at newline characters (spec-side notion of the lines of
the body text). Always returns at least one (possibly empty) line. -/
def splitNl : Str → List Str
  | [] => [[]]
  | c :: rest =>
    match splitNl rest with
    | [] => [[]]
    | l :: ls => if c = '\n' then [] :: l :: ls else (c :: l) :: ls

/-- Join pieces with a separator (spec-side re-assembly of lines). -/
def ical (sep : Str) : List Str → Str
  | [] => []
  | [x] => x
  | x :: y :: rest => x ++ sep ++ ical sep (y :: rest)

/-- A `requests.Response` as observed by `crawl.py`: status code, the
`Content-Type` header (`headers.get('Content-Type', '')`), and body text. -/
structure Response where
  status : Nat
  contentType : Str
  body : Str
deriving DecidableEq

/-- The BeautifulSoup observations `_crawl_single_page` makes of a parsed
document: optional `<title>` text, flattened body text, raw `href`
attribute values in document order. -/
structure Parsed where
  title : Option Str
  text : Str
  hrefs : List Str

/-- Oracles for everything outside the repository: URL library functions,
the network, the HTML parser, and the completion order of `as_completed`. -/
structure Ext where
  /-- `urlparse(u).netloc`. -/
  netloc : Str → Str
  /-- `urljoin(base, href)`. -/
  ujoin : Str → Str → Str
  /-- `href.strip()` (`crawl.py:117`). -/
  strip : Str → Str
  /-- The result of `_fetch_page(url)` for a given URL: the network and
  retry loop are deterministic per URL within one crawl model. -/
  fetchResp : Str → Option Response
  /-- BeautifulSoup parsing of a response body. -/
  parse : Str → Parsed
  /-- Completion order of `as_completed` on one batch. -/
  ord : List Str → List Str

/-- The configuration fields of `WebCrawler.__init__` that the crawl loop
reads. -/
structure Cfg where
  max_pages : Nat
  max_workers : Nat

/-- `WebCrawler._crawl_single_page` (`crawl.py:91-122`): fetch, check the
content type, extract title, body text and the same-domain links. -/
def crawl_single_page (E : Ext) (url base_domain : Str) :
    Option (Str × Str × List Str) :=
  match E.fetchResp url with
  | none => none
  | some resp =>
    if containsSub (lowerStr resp.contentType) (strOf "text/html") then
      let p := E.parse resp.body
      let page_title := p.title.getD url
      let new_links :=
        (p.hrefs.map (fun h => E.ujoin url (E.strip h))).filter
          (fun fu => decide (E.netloc fu = base_domain))
      some (page_title, p.text, new_links)
    else
      none

/-- The mutable state of `_bfs_crawl_concurrent` (`crawl.py:42-45`), plus
two pieces of instrumentation: the records written to the output file and
the history of drawn batches. -/
structure State where
  visited : List Str
  queue : List Str
  page_count : Nat
  written : List Str
  batches : List (List Str)

/-- Result of the batch-drawing loop: the batch, the updated visited set
and the remaining queue. -/
structure DrawRes where
  batch : List Str
  visited : List Str
  queue : List Str

/-- The inner `while` loop of `crawl.py:50-57`: pop URLs from the front of
the queue while the batch is below both bounds, skipping visited URLs and
marking every batched URL visited. -/
def drawGo (mw mp pc : Nat) : List Str → List Str → List Str → DrawRes
  | visited, [], batch => ⟨batch, visited, []⟩
  | visited, u :: rest, batch =>
    if batch.length < mw ∧ pc + batch.length < mp then
      if u ∈ visited then
        drawGo mw mp pc visited rest batch
      else
        drawGo mw mp pc (u :: visited) rest (batch ++ [u])
    else
      ⟨batch, visited, u :: rest⟩

/-- The per-link admission step of `crawl.py:82-87`: skip `.pdf` links,
skip visited links, append everything else to the queue. -/
def enqueueLinks (visited queue links : List Str) : List Str :=
  links.foldl
    (fun q link =>
      if pdfSuffix link then q
      else if link ∈ visited then q
      else q ++ [link])
    queue

/-- Processing of one completed future (`crawl.py:67-87`): a `None` result
is skipped; otherwise the page is written, the counter incremented, and
the discovered links enqueued. -/
def procOne (E : Ext) (bd : Str) (s : State) (current_url : Str) : State :=
  match crawl_single_page E current_url bd with
  | none => s
  | some (page_title, page_text, new_links) =>
    { s with
      written := s.written ++ [write_page page_title page_text current_url],
      page_count := s.page_count + 1,
      queue := enqueueLinks s.visited s.queue new_links }

/-- One iteration of the outer `while` loop of `crawl.py:48-87`: check the
guard, draw a batch, break on an empty batch, otherwise process the
results in completion order. -/
def runRound (E : Ext) (C : Cfg) (bd : Str) (s : State) : State :=
  if s.queue = [] then s
  else if C.max_pages ≤ s.page_count then s
  else
    let d := drawGo C.max_workers C.max_pages s.page_count s.visited s.queue []
    if d.batch = [] then
      { s with visited := d.visited, queue := d.queue }
    else
      let s1 : State :=
        { s with visited := d.visited, queue := d.queue,
                 batches := s.batches ++ [d.batch] }
      (E.ord d.batch).foldl (procOne E bd) s1

/-- `n` iterations of the crawl loop. -/
def runRounds (E : Ext) (C : Cfg) (bd : Str) : Nat → State → State
  | 0, s => s
  | n + 1, s => runRounds E C bd n (runRound E C bd s)

/-- The state set up by `crawl.py:42-44`: empty visited set, the queue
holding only the seed, zero pages. -/
def initState (seed : Str) : State := ⟨[], [seed], 0, [], []⟩

/-- The crawl state after `n` rounds of `_bfs_crawl_concurrent(seed, f)`;
`base_domain` is `urlparse(start_url).netloc` (`crawl.py:45`). -/
def crawlState (E : Ext) (C : Cfg) (seed : Str) (n : Nat) : State :=
  runRounds E C (E.netloc seed) n (initState seed)

/-- What one `requests.get` attempt inside `_fetch_page` can observe: a
response, a `ReadTimeout`, or any other exception. -/
inductive AttemptOutcome where
  | resp (r : Response)
  | readTimeout
  | transportError
deriving DecidableEq

/-- The outcomes `_fetch_page` retries on (`crawl.py:135-149`): status 403
or 409, a read timeout, or any other exception. -/
def RetryableO : AttemptOutcome → Prop
  | .resp r => r.status = 403 ∨ r.status = 409
  | .readTimeout => True
  | .transportError => True

instance : DecidablePred RetryableO := fun o => by
  cases o with
  | resp r => exact inferInstanceAs (Decidable (_ ∨ _))
  | readTimeout => exact inferInstanceAs (Decidable True)
  | transportError => exact inferInstanceAs (Decidable True)

/-- The retry loop of `_fetch_page` (`crawl.py:128-152`), with the attempt
index and the remaining iterations of `range(self.retry_count)`; returns
the result and the number of attempts actually made. -/
def fetchGo (att : Nat → AttemptOutcome) : Nat → Nat → Option Response × Nat
  | _, 0 => (none, 0)
  | attempt, n + 1 =>
    match att attempt with
    | .resp r =>
      if r.status = 200 then (some r, 1)
      else if r.status = 403 ∨ r.status = 409 then
        let k := fetchGo att (attempt + 1) n
        (k.1, k.2 + 1)
      else (none, 1)
    | .readTimeout =>
      let k := fetchGo att (attempt + 1) n
      (k.1, k.2 + 1)
    | .transportError =>
      let k := fetchGo att (attempt + 1) n
      (k.1, k.2 + 1)

/-- `WebCrawler._fetch_page` (`crawl.py:124-152`), abstracted over the
per-attempt network outcome: the returned response (or `None`) together
with the number of attempts made. -/
def fetch_page (retry_count : Nat) (att : Nat → AttemptOutcome) :
    Option Response × Nat :=
  fetchGo att 0 retry_count

/-! ### Properties of the batch-drawing loop -/

lemma drawGo_spec (mw mp pc : Nat) :
    ∀ (queue visited batch : List Str),
      batch.Nodup → (∀ u, u ∈ batch → u ∈ visited) →
      pc + batch.length ≤ mp →
      (∀ u, u ∈ batch → u ∈ (drawGo mw mp pc visited queue batch).batch) ∧
      (drawGo mw mp pc visited queue batch).batch.Nodup ∧
      (∀ u, u ∈ (drawGo mw mp pc visited queue batch).batch →
        u ∈ (drawGo mw mp pc visited queue batch).visited) ∧
      (∀ u, u ∈ (drawGo mw mp pc visited queue batch).batch →
        u ∈ batch ∨ (u ∈ queue ∧ u ∉ visited)) ∧
      (∀ u, u ∈ visited → u ∈ (drawGo mw mp pc visited queue batch).visited) ∧
      (∀ u, u ∈ (drawGo mw mp pc visited queue batch).visited →
        u ∈ visited ∨ u ∈ (drawGo mw mp pc visited queue batch).batch) ∧
      (drawGo mw mp pc visited queue batch).queue.Sublist queue ∧
      pc + (drawGo mw mp pc visited queue batch).batch.length ≤ mp := by
  intro queue
  induction queue with
  | nil =>
    intro visited batch h1 h2 h3
    simp only [drawGo]
    exact ⟨fun u hu => hu, h1, h2, fun u hu => Or.inl hu, fun u hu => hu,
      fun u hu => Or.inl hu, List.Sublist.refl _, h3⟩
  | cons v rest ih =>
    intro visited batch h1 h2 h3
    simp only [drawGo]
    by_cases hc : batch.length < mw ∧ pc + batch.length < mp
    · rw [if_pos hc]
      by_cases hv : v ∈ visited
      · rw [if_pos hv]
        obtain ⟨c0, c1, c2, c3, c4, c5, c6, c7⟩ := ih visited batch h1 h2 h3
        refine ⟨c0, c1, c2, ?_, c4, c5, c6.cons v, c7⟩
        intro u hu
        rcases c3 u hu with h | ⟨hq, hnv⟩
        · exact Or.inl h
        · exact Or.inr ⟨List.mem_cons_of_mem _ hq, hnv⟩
      · rw [if_neg hv]
        have h1' : (batch ++ [v]).Nodup := by
          rw [List.nodup_append]
          refine ⟨h1, List.nodup_singleton v, ?_⟩
          intro u hu hmem
          rw [List.mem_singleton] at hmem
          subst hmem
          exact hv (h2 u hu)
        have h2' : ∀ u, u ∈ batch ++ [v] → u ∈ v :: visited := by
          intro u hu
          rcases List.mem_append.mp hu with h | h
          · exact List.mem_cons_of_mem _ (h2 u h)
          · rw [List.mem_singleton] at h
            subst h
            exact List.mem_cons_self _ _
        have h3' : pc + (batch ++ [v]).length ≤ mp := by
          rw [List.length_append, List.length_singleton]
          omega
        obtain ⟨c0, c1, c2, c3, c4, c5, c6, c7⟩ :=
          ih (v :: visited) (batch ++ [v]) h1' h2' h3'
        refine ⟨?_, c1, c2, ?_, ?_, ?_, c6.cons v, c7⟩
        · intro u hu
          exact c0 u (List.mem_append_left _ hu)
        · intro u hu
          rcases c3 u hu with h | ⟨hq, hnv⟩
          · rcases List.mem_append.mp h with h' | h'
            · exact Or.inl h'
            · rw [List.mem_singleton] at h'
              subst h'
              exact Or.inr ⟨List.mem_cons_self _ _, hv⟩
          · refine Or.inr ⟨List.mem_cons_of_mem _ hq, fun hmem => hnv ?_⟩
            exact List.mem_cons_of_mem _ hmem
        · intro u hu
          exact c4 u (List.mem_cons_of_mem _ hu)
        · intro u hu
          rcases c5 u hu with h | h
          · rcases List.mem_cons.mp h with h' | h'
            · subst h'
              exact Or.inr (c0 u (List.mem_append_right _ (List.mem_singleton_self u)))
            · exact Or.inl h'
          · exact Or.inr h
    · rw [if_neg hc]
      exact ⟨fun u hu => hu, h1, h2, fun u hu => Or.inl hu, fun u hu => hu,
        fun u hu => Or.inl hu, List.Sublist.refl _, h3⟩

/-! ### Properties of link admission -/

/-- The per-link admission step of `crawl.py:82-87` appends, in order,
exactly the discovered links that do not end in `.pdf` and are not in the
visited set; it never consults the queue itself. -/
lemma enqueueLinks_eq :
    ∀ (links visited queue : List Str),
      enqueueLinks visited queue links =
        queue ++ links.filter (fun l => !(pdfSuffix l) && !(decide (l ∈ visited))) := by
  intro links
  induction links with
  | nil =>
    intro visited queue
    simp [enqueueLinks]
  | cons l rest ih =>
    intro visited queue
    have hstep : enqueueLinks visited queue (l :: rest) =
        enqueueLinks visited
          (if pdfSuffix l then queue
           else if l ∈ visited then queue else queue ++ [l]) rest := rfl
    rw [hstep, ih]
    by_cases hp : pdfSuffix l = true
    · simp [hp, List.filter_cons]
    · by_cases hv : l ∈ visited
      · simp [hp, hv, List.filter_cons]
      · simp [hp, hv, List.filter_cons, List.append_assoc]

lemma enqueueLinks_mem {visited queue links : List Str} {u : Str}
    (h : u ∈ enqueueLinks visited queue links) :
    u ∈ queue ∨ (u ∈ links ∧ pdfSuffix u = false ∧ u ∉ visited) := by
  rw [enqueueLinks_eq] at h
  rcases List.mem_append.mp h with h | h
  · exact Or.inl h
  · have := List.mem_filter.mp h
    obtain ⟨hmem, hcond⟩ := this
    rw [Bool.and_eq_true, Bool.not_eq_true', Bool.not_eq_true'] at hcond
    refine Or.inr ⟨hmem, hcond.1, ?_⟩
    have := hcond.2
    simpa using this

lemma enqueueLinks_count_of_visited {visited queue links : List Str} {u : Str}
    (h : u ∈ visited) :
    (enqueueLinks visited queue links).count u = queue.count u := by
  rw [enqueueLinks_eq, List.count_append]
  have : (links.filter (fun l => !(pdfSuffix l) && !(decide (l ∈ visited)))).count u = 0 := by
    rw [List.count_eq_zero]
    intro hmem
    have := (List.mem_filter.mp hmem).2
    rw [Bool.and_eq_true, Bool.not_eq_true', Bool.not_eq_true'] at this
    have h2 := this.2
    simp at h2
    exact h2 h
  omega

/-! ### Properties of single-page crawling and result processing -/

/-- Every link returned by `_crawl_single_page` passed the exact netloc
equality check of `crawl.py:119`. -/
lemma crawl_single_page_links {E : Ext} {cu bd t x : Str} {links : List Str}
    (h : crawl_single_page E cu bd = some (t, x, links)) :
    ∀ l ∈ links, E.netloc l = bd := by
  rcases hf : E.fetchResp cu with _ | resp
  · simp [crawl_single_page, hf] at h
  · by_cases hct : containsSub (lowerStr resp.contentType) (strOf "text/html") = true
    · rw [crawl_single_page, hf] at h
      simp only [hct, if_true, Option.some.injEq, Prod.mk.injEq] at h
      obtain ⟨ht, hx, hl⟩ := h
      intro l hm
      rw [← hl] at hm
      exact of_decide_eq_true (List.mem_filter.mp hm).2
    · rw [crawl_single_page, hf] at h
      simp [hct] at h

lemma crawl_single_page_none {E : Ext} {cu bd : Str}
    (h : E.fetchResp cu = none) : crawl_single_page E cu bd = none := by
  simp [crawl_single_page, h]

lemma procOne_visited (E : Ext) (bd : Str) (s : State) (u : Str) :
    (procOne E bd s u).visited = s.visited := by
  rcases h : crawl_single_page E u bd with _ | ⟨t, x, links⟩ <;> simp [procOne, h]

lemma procOne_batches (E : Ext) (bd : Str) (s : State) (u : Str) :
    (procOne E bd s u).batches = s.batches := by
  rcases h : crawl_single_page E u bd with _ | ⟨t, x, links⟩ <;> simp [procOne, h]

lemma procOne_pcw (E : Ext) (bd : Str) (s : State) (u : Str)
    (h : s.page_count = s.written.length) :
    (procOne E bd s u).page_count = (procOne E bd s u).written.length := by
  rcases hc : crawl_single_page E u bd with _ | ⟨t, x, links⟩ <;>
    simp [procOne, hc, h]

lemma procOne_pc_le (E : Ext) (bd : Str) (s : State) (u : Str) :
    (procOne E bd s u).page_count ≤ s.page_count + 1 := by
  rcases hc : crawl_single_page E u bd with _ | ⟨t, x, links⟩ <;>
    simp [procOne, hc]

lemma procOne_queue_mem {E : Ext} {bd : Str} {s : State} {cu u : Str}
    (h : u ∈ (procOne E bd s cu).queue) :
    u ∈ s.queue ∨ (pdfSuffix u = false ∧ u ∉ s.visited ∧
      ∃ t x links, crawl_single_page E cu bd = some (t, x, links) ∧ u ∈ links) := by
  rcases hc : crawl_single_page E cu bd with _ | ⟨t, x, links⟩
  · rw [procOne, hc] at h
    exact Or.inl h
  · rw [procOne, hc] at h
    simp only at h
    rcases enqueueLinks_mem h with h' | ⟨hm, hpdf, hnv⟩
    · exact Or.inl h'
    · exact Or.inr ⟨hpdf, hnv, t, x, links, rfl, hm⟩

lemma procOne_count_of_visited (E : Ext) (bd : Str) (s : State) (cu u : Str)
    (h : u ∈ s.visited) :
    (procOne E bd s cu).queue.count u ≤ s.queue.count u := by
  rcases hc : crawl_single_page E cu bd with _ | ⟨t, x, links⟩
  · rw [procOne, hc]
  · rw [procOne, hc]
    simp only
    rw [enqueueLinks_count_of_visited h]

lemma foldl_proc_visited (E : Ext) (bd : Str) :
    ∀ (l : List Str) (s : State),
      (l.foldl (procOne E bd) s).visited = s.visited := by
  intro l
  induction l with
  | nil => intro s; rfl
  | cons a rest ih =>
    intro s
    rw [List.foldl_cons, ih, procOne_visited]

lemma foldl_proc_batches (E : Ext) (bd : Str) :
    ∀ (l : List Str) (s : State),
      (l.foldl (procOne E bd) s).batches = s.batches := by
  intro l
  induction l with
  | nil => intro s; rfl
  | cons a rest ih =>
    intro s
    rw [List.foldl_cons, ih, procOne_batches]

lemma foldl_proc_pcw (E : Ext) (bd : Str) :
    ∀ (l : List Str) (s : State), s.page_count = s.written.length →
      (l.foldl (procOne E bd) s).page_count =
        (l.foldl (procOne E bd) s).written.length := by
  intro l
  induction l with
  | nil => intro s h; exact h
  | cons a rest ih =>
    intro s h
    rw [List.foldl_cons]
    exact ih _ (procOne_pcw E bd s a h)

lemma foldl_proc_pc_le (E : Ext) (bd : Str) :
    ∀ (l : List Str) (s : State),
      (l.foldl (procOne E bd) s).page_count ≤ s.page_count + l.length := by
  intro l
  induction l with
  | nil => intro s; simp
  | cons a rest ih =>
    intro s
    rw [List.foldl_cons]
    calc (rest.foldl (procOne E bd) (procOne E bd s a)).page_count
        ≤ (procOne E bd s a).page_count + rest.length := ih _
      _ ≤ s.page_count + 1 + rest.length := by
          have := procOne_pc_le E bd s a
          omega
      _ = s.page_count + (a :: rest).length := by
          rw [List.length_cons]
          omega

lemma foldl_proc_queue_mem (E : Ext) (bd : Str) :
    ∀ (l : List Str) (s : State) (u : Str),
      u ∈ (l.foldl (procOne E bd) s).queue →
      u ∈ s.queue ∨ (pdfSuffix u = false ∧
        ∃ cu t x links, crawl_single_page E cu bd = some (t, x, links) ∧ u ∈ links) := by
  intro l
  induction l with
  | nil => intro s u h; exact Or.inl h
  | cons a rest ih =>
    intro s u h
    rw [List.foldl_cons] at h
    rcases ih _ u h with h' | h'
    · rcases procOne_queue_mem h' with h'' | ⟨hpdf, hnv, t, x, links, hc, hm⟩
      · exact Or.inl h''
      · exact Or.inr ⟨hpdf, a, t, x, links, hc, hm⟩
    · exact Or.inr h'

lemma foldl_proc_count (E : Ext) (bd : Str) (u : Str) :
    ∀ (l : List Str) (s : State), u ∈ s.visited →
      (l.foldl (procOne E bd) s).queue.count u ≤ s.queue.count u := by
  intro l
  induction l with
  | nil => intro s _; exact Nat.le_refl _
  | cons a rest ih =>
    intro s h
    rw [List.foldl_cons]
    calc (rest.foldl (procOne E bd) (procOne E bd s a)).queue.count u
        ≤ (procOne E bd s a).queue.count u := by
          refine ih _ ?_
          rw [procOne_visited]
          exact h
      _ ≤ s.queue.count u := procOne_count_of_visited E bd s a u h

/-! ### The round invariant -/

/-- Invariants of the crawl-loop state that hold after every round,
independent of the completion order produced by `as_completed`. -/
structure InvA (E : Ext) (seed : Str) (s : State) : Prop where
  /-- No URL occurs twice across the drawn batches. -/
  nodup : s.batches.flatten.Nodup
  /-- Every URL ever drawn is in the visited set. -/
  join_vis : ∀ u, u ∈ s.batches.flatten → u ∈ s.visited
  /-- The page counter equals the number of records written. -/
  pcw : s.page_count = s.written.length
  /-- Every pending URL has the seed's netloc. -/
  queue_dom : ∀ u, u ∈ s.queue → E.netloc u = E.netloc seed
  /-- Every drawn URL has the seed's netloc. -/
  join_dom : ∀ u, u ∈ s.batches.flatten → E.netloc u = E.netloc seed
  /-- No pending URL other than the seed itself ends in `.pdf`. -/
  queue_pdf : ∀ u, u ∈ s.queue → pdfSuffix u = true → u = seed
  /-- No drawn URL other than the seed itself ends in `.pdf`. -/
  join_pdf : ∀ u, u ∈ s.batches.flatten → pdfSuffix u = true → u = seed

lemma invA_init (E : Ext) (seed : Str) : InvA E seed (initState seed) := by
  refine ⟨?_, ?_, ?_, ?_, ?_, ?_, ?_⟩
  · simp [initState]
  · simp [initState]
  · simp [initState]
  · intro u hu
    rw [initState] at hu
    simp only [List.mem_singleton] at hu
    subst hu
    rfl
  · simp [initState]
  · intro u hu _
    rw [initState] at hu
    simpa using hu
  · simp [initState]

lemma invA_runRound (E : Ext) (C : Cfg) (seed : Str) (s : State)
    (h : InvA E seed s) : InvA E seed (runRound E C (E.netloc seed) s) := by
  obtain ⟨hnd, hjv, hpw, hqd, hjd, hqp, hjp⟩ := h
  rw [runRound]
  by_cases hq : s.queue = []
  · rw [if_pos hq]
    exact ⟨hnd, hjv, hpw, hqd, hjd, hqp, hjp⟩
  · rw [if_neg hq]
    by_cases hmp : C.max_pages ≤ s.page_count
    · rw [if_pos hmp]
      exact ⟨hnd, hjv, hpw, hqd, hjd, hqp, hjp⟩
    · rw [if_neg hmp]
      obtain ⟨c0, c1, c2, c3, c4, c5, c6, c7⟩ :=
        drawGo_spec C.max_workers C.max_pages s.page_count s.queue s.visited []
          List.nodup_nil (by simp) (by simp only [List.length_nil]; omega)
      set d := drawGo C.max_workers C.max_pages s.page_count s.visited s.queue []
        with hd
      by_cases hb : d.batch = []
      · rw [if_pos hb]
        refine ⟨hnd, ?_, hpw, ?_, hjd, ?_, hjp⟩
        · intro u hu
          exact c4 u (hjv u hu)
        · intro u hu
          exact hqd u (c6.mem hu)
        · intro u hu
          exact hqp u (c6.mem hu)
      · rw [if_neg hb]
        have hbatch_new : ∀ u, u ∈ d.batch → u ∈ s.queue ∧ u ∉ s.visited := by
          intro u hu
          rcases c3 u hu with h' | h'
          · exact absurd h' (List.not_mem_nil u)
          · exact h'
        have hflat : (s.batches ++ [d.batch]).flatten =
            s.batches.flatten ++ d.batch := by
          rw [List.flatten_append]
          simp
        refine ⟨?_, ?_, ?_, ?_, ?_, ?_, ?_⟩
        · rw [foldl_proc_batches, hflat]
          rw [List.nodup_append]
          refine ⟨hnd, c1, ?_⟩
          intro u hu hmem
          exact (hbatch_new u hmem).2 (hjv u hu)
        · intro u hu
          rw [foldl_proc_batches, hflat] at hu
          rw [foldl_proc_visited]
          rcases List.mem_append.mp hu with h' | h'
          · exact c4 u (hjv u h')
          · exact c2 u h'
        · exact foldl_proc_pcw E (E.netloc seed) _ _ hpw
        · intro u hu
          rcases foldl_proc_queue_mem E (E.netloc seed) _ _ u hu with h' | h'
          · exact hqd u (c6.mem h')
          · obtain ⟨hpdf, cu, t, x, links, hc, hm⟩ := h'
            exact crawl_single_page_links hc u hm
        · intro u hu
          rw [foldl_proc_batches, hflat] at hu
          rcases List.mem_append.mp hu with h' | h'
          · exact hjd u h'
          · exact hqd u (hbatch_new u h').1
        · intro u hu hpdf
          rcases foldl_proc_queue_mem E (E.netloc seed) _ _ u hu with h' | h'
          · exact hqp u (c6.mem h') hpdf
          · obtain ⟨hpdf', _⟩ := h'
            rw [hpdf] at hpdf'
            exact absurd hpdf' (by simp)
        · intro u hu hpdf
          rw [foldl_proc_batches, hflat] at hu
          rcases List.mem_append.mp hu with h' | h'
          · exact hjp u h' hpdf
          · exact hqp u (hbatch_new u h').1 hpdf

lemma invA_runRounds (E : Ext) (C : Cfg) (seed : Str) :
    ∀ (n : Nat) (s : State), InvA E seed s →
      InvA E seed (runRounds E C (E.netloc seed) n s) := by
  intro n
  induction n with
  | zero => intro s h; exact h
  | succ m ih =>
    intro s h
    rw [runRounds]
    exact ih _ (invA_runRound E C seed s h)

lemma invA_crawlState (E : Ext) (C : Cfg) (seed : Str) (n : Nat) :
    InvA E seed (crawlState E C seed n) :=
  invA_runRounds E C seed n _ (invA_init E seed)

/-! ### The page budget -/

lemma runRound_pc_le (E : Ext) (C : Cfg) (bd : Str) (s : State)
    (hord : ∀ l : List Str, (E.ord l).Perm l)
    (h : s.page_count ≤ C.max_pages) :
    (runRound E C bd s).page_count ≤ C.max_pages := by
  rw [runRound]
  by_cases hq : s.queue = []
  · rw [if_pos hq]; exact h
  · rw [if_neg hq]
    by_cases hmp : C.max_pages ≤ s.page_count
    · rw [if_pos hmp]; exact h
    · rw [if_neg hmp]
      obtain ⟨c0, c1, c2, c3, c4, c5, c6, c7⟩ :=
        drawGo_spec C.max_workers C.max_pages s.page_count s.queue s.visited []
          List.nodup_nil (by simp) (by simp only [List.length_nil]; omega)
      set d := drawGo C.max_workers C.max_pages s.page_count s.visited s.queue []
        with hd
      by_cases hb : d.batch = []
      · rw [if_pos hb]; exact h
      · rw [if_neg hb]
        refine le_trans (foldl_proc_pc_le E bd (E.ord d.batch) _) ?_
        rw [(hord d.batch).length_eq]
        exact c7

lemma crawlState_pc_le (E : Ext) (C : Cfg) (seed : Str)
    (hord : ∀ l : List Str, (E.ord l).Perm l) :
    ∀ n, (crawlState E C seed n).page_count ≤ C.max_pages := by
  have main : ∀ (n : Nat) (s : State), s.page_count ≤ C.max_pages →
      (runRounds E C (E.netloc seed) n s).page_count ≤ C.max_pages := by
    intro n
    induction n with
    | zero => intro s h; exact h
    | succ m ih =>
      intro s h
      rw [runRounds]
      exact ih _ (runRound_pc_le E C (E.netloc seed) s hord h)
  intro n
  exact main n _ (by simp [initState])

/-! ### Properties of the fetch retry loop -/

lemma fetchGo_all_retryable (att : Nat → AttemptOutcome) :
    ∀ (n a : Nat), (∀ i, a ≤ i → i < a + n → RetryableO (att i)) →
      fetchGo att a n = (none, n) := by
  intro n
  induction n with
  | zero => intro a _; rfl
  | succ m ih =>
    intro a h
    have h0 : RetryableO (att a) := h a (Nat.le_refl a) (by omega)
    have hrest : ∀ i, a + 1 ≤ i → i < (a + 1) + m → RetryableO (att i) := by
      intro i h1 h2
      exact h i (by omega) (by omega)
    cases hatt : att a with
    | resp r =>
      have h0' : r.status = 403 ∨ r.status = 409 := by
        rw [hatt] at h0
        exact h0
      have hne : ¬ r.status = 200 := by rcases h0' with h' | h' <;> omega
      simp only [fetchGo, hatt, if_neg hne, if_pos h0', ih (a + 1) hrest]
    | readTimeout =>
      simp only [fetchGo, hatt, ih (a + 1) hrest]
    | transportError =>
      simp only [fetchGo, hatt, ih (a + 1) hrest]

lemma fetchGo_snd_pos (att : Nat → AttemptOutcome) (a n : Nat) :
    1 ≤ (fetchGo att a (n + 1)).2 := by
  cases hatt : att a with
  | resp r =>
    by_cases h2 : r.status = 200
    · simp [fetchGo, hatt, h2]
    · by_cases h3 : r.status = 403 ∨ r.status = 409
      · simp [fetchGo, hatt, h2, h3]
      · simp [fetchGo, hatt, h2, h3]
  | readTimeout => simp [fetchGo, hatt]
  | transportError => simp [fetchGo, hatt]

lemma fetch_page_200 (n : Nat) (att : Nat → AttemptOutcome) (r : Response)
    (h : att 0 = .resp r) (h2 : r.status = 200) :
    fetch_page (n + 1) att = (some r, 1) := by
  simp [fetch_page, fetchGo, h, h2]

lemma fetch_page_retryable_step (n : Nat) (att : Nat → AttemptOutcome)
    (h : RetryableO (att 0)) :
    fetch_page (n + 2) att =
      ((fetchGo att 1 (n + 1)).1, (fetchGo att 1 (n + 1)).2 + 1) := by
  cases hatt : att 0 with
  | resp r =>
    have h0' : r.status = 403 ∨ r.status = 409 := by
      rw [hatt] at h
      exact h
    have hne : ¬ r.status = 200 := by rcases h0' with h' | h' <;> omega
    simp [fetch_page, fetchGo, hatt, hne, h0']
  | readTimeout => simp [fetch_page, fetchGo, hatt]
  | transportError => simp [fetch_page, fetchGo, hatt]

lemma fetch_page_terminal (n : Nat) (att : Nat → AttemptOutcome) (r : Response)
    (h : att 0 = .resp r) (h200 : r.status ≠ 200) (h403 : r.status ≠ 403)
    (h409 : r.status ≠ 409) :
    fetch_page (n + 1) att = (none, 1) := by
  have h3 : ¬ (r.status = 403 ∨ r.status = 409) := by
    rintro (h' | h') <;> omega
  simp [fetch_page, fetchGo, h, h200, h3]

/-! ### The output record format -/

lemma splitNl_ne (s : Str) : splitNl s ≠ [] := by
  cases s with
  | nil => simp [splitNl]
  | cons c rest =>
    rw [splitNl]
    rcases h : splitNl rest with _ | ⟨l, ls⟩
    · simp
    · by_cases hc : c = '\n' <;> simp [hc]

lemma replNl_eq_ical (s : Str) :
    replNl s = ical ('\n' :: spaces4) (splitNl s) := by
  induction s with
  | nil => rfl
  | cons c rest ih =>
    rcases h : splitNl rest with _ | ⟨l, ls⟩
    · exact absurd h (splitNl_ne rest)
    · rw [h] at ih
      by_cases hc : c = '\n'
      · subst hc
        simp only [replNl, splitNl, h, if_pos]
        rw [ih]
        simp only [ical]
        simp [List.append_assoc]
      · simp only [replNl, splitNl, h, hc, if_neg, ite_false]
        cases ls with
        | nil =>
          simp only [ical] at ih ⊢
          rw [ih]
        | cons y ys =>
          rw [ih]
          simp only [ical]
          simp [List.append_assoc]

lemma ical_map_indent (p : Str) (ps : List Str) :
    spaces4 ++ ical ('\n' :: spaces4) (p :: ps) =
      ical ['\n'] ((p :: ps).map (fun line => spaces4 ++ line)) := by
  induction ps generalizing p with
  | nil => simp [ical]
  | cons y ys ih =>
    have ihy := ih y
    simp only [List.map_cons] at ihy
    simp only [ical, List.map_cons]
    rw [← ihy]
    simp [List.append_assoc]

/-! ### Concrete instances used to exercise the model -/

def urlSeed : Str := strOf "http://a.test/"

def urlX : Str := strOf "http://a.test/x"

def urlPdf : Str := strOf "http://a.test/doc.pdf"

/-- A minimal environment: every fetch fails, so only the seed is ever
drawn. -/
def extEx : Ext where
  netloc := fun _ => strOf "a.test"
  ujoin := fun _ h => h
  strip := fun h => h
  fetchResp := fun _ => none
  parse := fun _ => ⟨none, [], []⟩
  ord := fun l => l

/-- An environment where the seed page carries the same link twice. -/
def extDup : Ext where
  netloc := fun _ => strOf "a.test"
  ujoin := fun _ h => h
  strip := fun h => h
  fetchResp := fun u =>
    if u = urlSeed then some ⟨200, strOf "text/html", strOf "page"⟩ else none
  parse := fun _ => ⟨some (strOf "T"), strOf "body", [urlX, urlX]⟩
  ord := fun l => l

def cfgEx : Cfg := ⟨30, 5⟩

def cfgOne : Cfg := ⟨1, 1⟩

def stVis : State := ⟨[urlX], [urlX], 0, [], []⟩

def resp200 : Response := ⟨200, [], []⟩

def resp403 : Response := ⟨403, [], []⟩

def resp404 : Response := ⟨404, [], []⟩

/-! ### Helper for C5: a visited URL is never re-enqueued -/

lemma runRound_visited_count (E : Ext) (C : Cfg) (bd : Str) (s : State)
    (u : Str) (hu : u ∈ s.visited) :
    u ∈ (runRound E C bd s).visited ∧
      (runRound E C bd s).queue.count u ≤ s.queue.count u := by
  rw [runRound]
  by_cases hq : s.queue = []
  · rw [if_pos hq]
    exact ⟨hu, Nat.le_refl _⟩
  · rw [if_neg hq]
    by_cases hmp : C.max_pages ≤ s.page_count
    · rw [if_pos hmp]
      exact ⟨hu, Nat.le_refl _⟩
    · rw [if_neg hmp]
      obtain ⟨c0, c1, c2, c3, c4, c5, c6, c7⟩ :=
        drawGo_spec C.max_workers C.max_pages s.page_count s.queue s.visited []
          List.nodup_nil (by simp) (by simp only [List.length_nil]; omega)
      set d := drawGo C.max_workers C.max_pages s.page_count s.visited s.queue []
        with hd
      by_cases hb : d.batch = []
      · rw [if_pos hb]
        exact ⟨c4 u hu, c6.count_le u⟩
      · rw [if_neg hb]
        constructor
        · rw [foldl_proc_visited]
          exact c4 u hu
        · refine le_trans (foldl_proc_count E bd u (E.ord d.batch) _ (c4 u hu)) ?_
          exact c6.count_le u

/-! ### The claims -/

/-- C1: for every crawl of one seed, each URL appears in at most one batch
across all rounds — drawing pops from the front of the queue, skips
visited URLs, and marks every batched URL visited before dispatch, so the
concatenation of all drawn batches has no duplicates. -/
theorem c1_no_duplicate_visits (E : Ext) (C : Cfg) (seed : Str) (n : Nat) :
    ((crawlState E C seed n).batches.flatten).Nodup :=
  (invA_crawlState E C seed n).nodup

/-- C2: the page counter never exceeds `max_pages` at the end of any
round, for any completion order that is a permutation of the batch (which
is what `as_completed` over the batch's futures yields). -/
theorem c2_budget_respected (E : Ext) (C : Cfg) (seed : Str) (n : Nat)
    (hord : ∀ l : List Str, (E.ord l).Perm l) :
    (crawlState E C seed n).page_count ≤ C.max_pages :=
  crawlState_pc_le E C seed hord n

theorem c2_budget_respected_witness :
    (∀ l : List Str, (extEx.ord l).Perm l) ∧
      (crawlState extEx cfgEx urlSeed 2).page_count ≤ cfgEx.max_pages :=
  ⟨fun l => List.Perm.refl l,
    c2_budget_respected extEx cfgEx urlSeed 2 (fun l => List.Perm.refl l)⟩

/-- C3 counterexample: the claim says enqueue skips URLs already present
in the pending queue, so the queue never holds two entries for one URL.
In the code (`crawl.py:86-87`) only the visited set is checked: after one
round of a crawl whose seed page links to the same URL twice, the queue
holds that URL twice. -/
theorem c3_counterexample :
    ¬ ((crawlState extDup cfgEx urlSeed 1).queue.Nodup) := by decide

/-- C3 (amended): enqueue admits a discovered link iff it does not end in
`.pdf` and is not in the visited set; membership in the pending queue is
not consulted, so the queue can hold duplicate entries for one URL (each
is still drawn at most once, since draws skip visited URLs — see C1). -/
theorem c3_enqueue_amended (visited queue links : List Str) :
    enqueueLinks visited queue links =
      queue ++ links.filter (fun l => !(pdfSuffix l) && !(decide (l ∈ visited))) :=
  enqueueLinks_eq links visited queue

/-- C4: domain containment — every pending and every drawn URL has the
seed's netloc, and `_crawl_single_page` only returns links whose parsed
netloc is exactly (case-sensitively) equal to the base domain. -/
theorem c4_domain_containment (E : Ext) (C : Cfg) (seed : Str) (n : Nat) :
    (∀ u ∈ (crawlState E C seed n).queue, E.netloc u = E.netloc seed) ∧
    (∀ u ∈ (crawlState E C seed n).batches.flatten,
      E.netloc u = E.netloc seed) ∧
    (∀ (cu t x : Str) (links : List Str),
      crawl_single_page E cu (E.netloc seed) = some (t, x, links) →
      ∀ l ∈ links, E.netloc l = E.netloc seed) :=
  ⟨(invA_crawlState E C seed n).queue_dom,
   (invA_crawlState E C seed n).join_dom,
   fun _ _ _ _ h => crawl_single_page_links h⟩

theorem c4_domain_containment_witness :
    urlSeed ∈ (crawlState extEx cfgEx urlSeed 1).batches.flatten ∧
      extEx.netloc urlSeed = extEx.netloc urlSeed :=
  ⟨by decide,
    (c4_domain_containment extEx cfgEx urlSeed 1).2.1 urlSeed (by decide)⟩

/-- C5: retry bound and local give-up — a fetch whose every attempt is
retryable is attempted exactly `retry_count` times and returns `None`
(total, no crash); a `None` fetch yields no `CrawlResult`; and a URL in
the visited set stays visited and its queue multiplicity never grows, so
a failed URL is never re-enqueued for the remainder of the crawl. -/
theorem c5_retry_bound :
    (∀ (retry_count : Nat) (att : Nat → AttemptOutcome),
        (∀ i, i < retry_count → RetryableO (att i)) →
        fetch_page retry_count att = (none, retry_count)) ∧
    (∀ (E : Ext) (cu bd : Str), E.fetchResp cu = none →
        crawl_single_page E cu bd = none) ∧
    (∀ (E : Ext) (C : Cfg) (bd : Str) (s : State) (u : Str), u ∈ s.visited →
        u ∈ (runRound E C bd s).visited ∧
        (runRound E C bd s).queue.count u ≤ s.queue.count u) := by
  refine ⟨?_, ?_, ?_⟩
  · intro rc att h
    exact fetchGo_all_retryable att rc 0 (fun i _ h2 => h i (by omega))
  · intro E cu bd h
    exact crawl_single_page_none h
  · intro E C bd s u hu
    exact runRound_visited_count E C bd s u hu

theorem c5_retry_bound_witness :
    ((∀ i, i < 3 → RetryableO ((fun _ => AttemptOutcome.readTimeout) i)) ∧
      fetch_page 3 (fun _ => AttemptOutcome.readTimeout) = (none, 3)) ∧
    (extEx.fetchResp urlX = none ∧
      crawl_single_page extEx urlX (strOf "a.test") = none) ∧
    (urlX ∈ stVis.visited ∧
      urlX ∈ (runRound extEx cfgEx (strOf "a.test") stVis).visited ∧
      (runRound extEx cfgEx (strOf "a.test") stVis).queue.count urlX ≤
        stVis.queue.count urlX) := by
  refine ⟨⟨fun i _ => trivial, ?_⟩, ⟨rfl, ?_⟩, ⟨by decide, ?_, ?_⟩⟩
  · exact c5_retry_bound.1 3 (fun _ => AttemptOutcome.readTimeout)
      (fun i _ => trivial)
  · exact c5_retry_bound.2.1 extEx urlX (strOf "a.test") rfl
  · exact (c5_retry_bound.2.2 extEx cfgEx (strOf "a.test") stVis urlX
      (by decide)).1
  · exact (c5_retry_bound.2.2 extEx cfgEx (strOf "a.test") stVis urlX
      (by decide)).2

/-- C6: fetch outcome classification — HTTP 200 returns success after one
attempt; a 403/409 status, a read timeout or a transport error is
retryable, so the loop re-enters with the next attempt (at least two
attempts are made when the budget admits it); any other non-200 status is
terminal: the fetcher returns `None` after exactly one attempt. -/
theorem c6_fetch_classification :
    (∀ (n : Nat) (att : Nat → AttemptOutcome) (r : Response),
        att 0 = .resp r → r.status = 200 →
        fetch_page (n + 1) att = (some r, 1)) ∧
    (∀ (n : Nat) (att : Nat → AttemptOutcome), RetryableO (att 0) →
        fetch_page (n + 2) att =
          ((fetchGo att 1 (n + 1)).1, (fetchGo att 1 (n + 1)).2 + 1) ∧
        2 ≤ (fetch_page (n + 2) att).2) ∧
    (∀ (n : Nat) (att : Nat → AttemptOutcome) (r : Response),
        att 0 = .resp r → r.status ≠ 200 → r.status ≠ 403 → r.status ≠ 409 →
        fetch_page (n + 1) att = (none, 1)) := by
  refine ⟨?_, ?_, ?_⟩
  · exact fun n att r h h2 => fetch_page_200 n att r h h2
  · intro n att h
    have hstep := fetch_page_retryable_step n att h
    refine ⟨hstep, ?_⟩
    rw [hstep]
    show 2 ≤ (fetchGo att 1 (n + 1)).2 + 1
    have := fetchGo_snd_pos att 1 n
    omega
  · exact fun n att r h h1 h2 h3 => fetch_page_terminal n att r h h1 h2 h3

theorem c6_fetch_classification_witness :
    ((fun _ => AttemptOutcome.resp resp200) 0 = AttemptOutcome.resp resp200 ∧
      resp200.status = 200 ∧
      fetch_page 3 (fun _ => AttemptOutcome.resp resp200) = (some resp200, 1)) ∧
    (RetryableO ((fun _ => AttemptOutcome.resp resp403) 0) ∧
      2 ≤ (fetch_page 3 (fun _ => AttemptOutcome.resp resp403)).2) ∧
    (resp404.status ≠ 200 ∧ resp404.status ≠ 403 ∧ resp404.status ≠ 409 ∧
      fetch_page 1 (fun _ => AttemptOutcome.resp resp404) = (none, 1)) := by
  refine ⟨⟨rfl, rfl, ?_⟩, ⟨Or.inl rfl, ?_⟩, ⟨by decide, by decide, by decide, ?_⟩⟩
  · exact c6_fetch_classification.1 2 (fun _ => AttemptOutcome.resp resp200)
      resp200 rfl rfl
  · exact (c6_fetch_classification.2.1 1 (fun _ => AttemptOutcome.resp resp403)
      (Or.inl rfl)).2
  · exact c6_fetch_classification.2.2 0 (fun _ => AttemptOutcome.resp resp404)
      resp404 rfl (by decide) (by decide) (by decide)

/-- C7: PDF filtering — no URL ending in `.pdf` under case-insensitive
suffix comparison is ever enqueued or drawn, except possibly the seed
itself (links are filtered at `crawl.py:83`). -/
theorem c7_pdf_filtering (E : Ext) (C : Cfg) (seed : Str) (n : Nat) :
    (∀ u ∈ (crawlState E C seed n).queue, pdfSuffix u = true → u = seed) ∧
    (∀ u ∈ (crawlState E C seed n).batches.flatten,
      pdfSuffix u = true → u = seed) :=
  ⟨(invA_crawlState E C seed n).queue_pdf,
   (invA_crawlState E C seed n).join_pdf⟩

theorem c7_pdf_filtering_witness :
    urlPdf ∈ (crawlState extEx cfgEx urlPdf 1).batches.flatten ∧
      pdfSuffix urlPdf = true ∧ urlPdf = urlPdf :=
  ⟨by decide, by decide,
    (c7_pdf_filtering extEx cfgEx urlPdf 1).2 urlPdf (by decide) (by decide)⟩

/-- C8: output format — the record emitted for a page is the line
`<cleaned title> (<url>):` followed by the cleaned body text with every
line (including the first) indented by four spaces, followed by a blank
line; and cleaning removes exactly the characters in ASCII ranges
0x00–0x08, 0x0B, 0x0C, 0x0E–0x1F and 0x7F. -/
theorem c8_output_format :
    (∀ title text url : Str,
        write_page title text url =
          (clean_text title ++ strOf " (" ++ url ++ strOf "):") ++ ['\n'] ++
            ical ['\n']
              ((splitNl (clean_text text)).map (fun line => spaces4 ++ line)) ++
            ['\n'] ++ ['\n']) ∧
    (∀ s : Str, clean_text s =
        s.filter (fun c => !((c.toNat ≤ 0x08) || (c.toNat == 0x0B) ||
          (c.toNat == 0x0C) || (0x0E ≤ c.toNat && c.toNat ≤ 0x1F) ||
          (c.toNat == 0x7F)))) := by
  constructor
  · intro title text url
    rcases h : splitNl (clean_text text) with _ | ⟨l, ls⟩
    · exact absurd h (splitNl_ne _)
    · rw [write_page, replNl_eq_ical (clean_text text), h, ical_map_indent l ls]
      simp [List.append_assoc]
  · intro s
    rfl

/-- C9 (implicit): the seed URL is enqueued and drawn unconditionally —
the same-domain filter and the `.pdf` filter apply only to links found on
fetched pages, so any seed (e.g. one ending in `.pdf`) forms the entire
first batch whenever the bounds admit one page. -/
theorem c9_seed_unconditional (E : Ext) (C : Cfg) (seed : Str)
    (hw : 1 ≤ C.max_workers) (hp : 1 ≤ C.max_pages) :
    (crawlState E C seed 1).batches = [[seed]] := by
  have hw' : 0 < C.max_workers := hw
  have hp' : 0 < C.max_pages := hp
  have hne : C.max_pages ≠ 0 := by omega
  simp [crawlState, runRounds, runRound, initState, drawGo, hw', hp', hne,
    foldl_proc_batches]

theorem c9_seed_unconditional_witness :
    (1 ≤ cfgOne.max_workers ∧ 1 ≤ cfgOne.max_pages) ∧
      (crawlState extEx cfgOne urlPdf 1).batches = [[urlPdf]] :=
  ⟨⟨by decide, by decide⟩,
    c9_seed_unconditional extEx cfgOne urlPdf (by decide) (by decide)⟩

/-- C10 (implicit): the value `_bfs_crawl_concurrent` returns equals the
number of page records written — the counter is incremented exactly once
per written record, and `None` task results neither write nor count. -/
theorem c10_count_matches_output (E : Ext) (C : Cfg) (seed : Str) (n : Nat) :
    (crawlState E C seed n).page_count =
      (crawlState E C seed n).written.length :=
  (invA_crawlState E C seed n).pcw

end WordsCount
